import Mathlib

/-!
StackAPI: verification of the stack store semantics.

Shallow embedding of `src/main.py` (ImShyMike/StackAPI): a collection of
capacity-bounded signed-64-bit integer stacks addressed by identifier, with
TTL-based expiry.  Python's `array.array("q")` is modelled as a `List Int`
whose *end* is the top of the stack (`append` pushes at the end, `pop`
removes the last element); `array.append` raises `OverflowError` without
mutating the array when the value does not fit in a signed 64-bit integer.
The store `app.stacks` (a dict from id to `{"array": ..., "expiry": ...}`)
is modelled as an association list; in-place dict/array mutation becomes
explicit state passing.
-/

namespace StackAPI

/-- Constant `MAX_STACK_SIZE = 1024 * 100` (src/main.py line 15). -/
def MAX_STACK_SIZE : Nat := 1024 * 100

/-- Constant `MAX_STACKS = 1000` (src/main.py line 16). -/
def MAX_STACKS : Nat := 1000

/-- TTL used by `refresh_stack_expiry` and `create`: `60 * 60` seconds. -/
def TTL : Nat := 60 * 60

/-- Whether a value fits `array.array("q")`, i.e. the signed 64-bit range;
`append` raises `OverflowError` (without appending) exactly when this is
false. -/
def fitsInt64 (v : Int) : Bool := decide (-(2 ^ 63) ≤ v) && decide (v ≤ 2 ^ 63 - 1)

/-- One entry of `app.stacks`: `{"array": array("q"), "expiry": float}`.
Time is modelled as `Nat`. -/
structure StackEntry where
  arr : List Int
  expiry : Nat
  deriving DecidableEq

/-- The store `app.stacks`: dict from stack id to entry, as an association list. -/
abbrev Store : Type := List (Nat × StackEntry)

/-- Update the entry stored under `id` (dict/array in-place mutation). -/
def mapEntryAt (s : Store) (id : Nat) (g : StackEntry → StackEntry) : Store :=
  s.map (fun p => if p.1 = id then (p.1, g p.2) else p)

/-- Function `refresh_stack_expiry` (src/main.py lines 50-52):
`app.stacks[stack_id]["expiry"] = time.time() + 60 * 60`. -/
def refresh_stack_expiry (s : Store) (id : Nat) (now : Nat) : Store :=
  mapEntryAt s id (fun e => { e with expiry := now + TTL })

/-- Function `remove_expired_stacks` (src/main.py lines 55-59): delete every entry
with `stack["expiry"] < time.time()`. -/
def remove_expired_stacks (s : Store) (now : Nat) : Store :=
  s.filter (fun p => ! decide (p.2.expiry < now))

/-- Function `before_request` (src/main.py lines 426-429): runs the sweep before each
inbound request. -/
def before_request (s : Store) (now : Nat) : Store :=
  remove_expired_stacks s now

/-- Assignment `dict[key] = value`: overwrite if present, else insert. -/
def dictInsert (s : Store) (id : Nat) (e : StackEntry) : Store :=
  if s.lookup id = none then s ++ [(id, e)]
  else s.map (fun p => if p.1 = id then (id, e) else p)

/-- Result of `create` (src/main.py lines 100-128). -/
inductive CreateResult where
  | ok (id : Nat)
  | maxStacks
  deriving DecidableEq

/-- Function `create` (src/main.py lines 118-128).  The freshly generated random id
(`int(secrets.token_hex(8), 16)`) is passed in as `newId`. -/
def create (s : Store) (newId : Nat) (now : Nat) : Store × CreateResult :=
  if MAX_STACKS ≤ s.length then (s, CreateResult.maxStacks)
  else (dictInsert s newId { arr := [], expiry := now + TTL }, CreateResult.ok newId)

/-- Errors produced by the `require_valid_stack_id` decorator
(src/main.py lines 62-82). -/
inductive LookupErr where
  | idNotInteger
  | stackNotFound
  deriving DecidableEq

/-- The `require_valid_stack_id` decorator (src/main.py lines 62-82): parse
the id argument (`none` models a missing/non-integer query parameter), fail
with 404 when absent from `app.stacks`, otherwise refresh the expiry and run
the wrapped endpoint body.  The body `f` reads the entry's array and its
in-place mutations become the returned list. -/
def require_valid_stack_id {α : Type} (f : List Int → List Int × α)
    (s : Store) (idArg : Option Nat) (now : Nat) : Store × Except LookupErr α :=
  match idArg with
  | none => (s, Except.error LookupErr.idNotInteger)
  | some id =>
    match s.lookup id with
    | none => (s, Except.error LookupErr.stackNotFound)
    | some e =>
      let s1 := refresh_stack_expiry s id now
      let out := f e.arr
      (mapEntryAt s1 id (fun e2 => { e2 with arr := out.1 }), Except.ok out.2)

/-- Result of `push` (src/main.py lines 131-179). -/
inductive PushResult where
  | ok
  | valueNotInteger
  | valueTooLarge
  | stackOverflow
  deriving DecidableEq

/-- Body of `push` (src/main.py lines 162-179): parse the value (`none` models
a missing/non-integer parameter), `stack.append(value)` (raises
`OverflowError` without appending when out of int64 range), then roll back
with `stack.pop()` if the length exceeds `MAX_STACK_SIZE`. -/
def push (vs : List Int) (value : Option Int) : List Int × PushResult :=
  match value with
  | none => (vs, PushResult.valueNotInteger)
  | some v =>
    if fitsInt64 v = false then (vs, PushResult.valueTooLarge)
    else
      let vs2 := vs ++ [v]
      if MAX_STACK_SIZE < vs2.length then (vs2.dropLast, PushResult.stackOverflow)
      else (vs2, PushResult.ok)

/-- Result of `push_bulk` (src/main.py lines 182-236). -/
inductive PushBulkResult where
  | ok
  | missingValues
  | notIntegers
  | valueTooLarge
  | stackOverflow
  deriving DecidableEq

/-- Comprehension `[int(value) for value in values]` (src/main.py line 219): parse every
token; any non-integral token (`none`) makes the whole comprehension raise,
before anything is appended. -/
def parseAll : List (Option Int) → Option (List Int)
  | [] => some []
  | none :: _ => none
  | some v :: rest => (parseAll rest).map (fun l => v :: l)

/-- The append loop of `push_bulk` (src/main.py lines 225-236): for each
value, `stack.append` (an out-of-range value raises `OverflowError` without
appending and aborts with "Value is too large"), then check the size bound
and roll the last append back on overflow. -/
def pushBulkLoop : List Int → List Int → List Int × PushBulkResult
  | vs, [] => (vs, PushBulkResult.ok)
  | vs, v :: rest =>
    if fitsInt64 v = false then (vs, PushBulkResult.valueTooLarge)
    else
      let vs2 := vs ++ [v]
      if MAX_STACK_SIZE < vs2.length then (vs2.dropLast, PushBulkResult.stackOverflow)
      else pushBulkLoop vs2 rest

/-- Body of `push_bulk` (src/main.py lines 214-236): reject an absent/empty
`values` parameter, parse the whole comma-separated batch up front, then run
the append loop. -/
def push_bulk (vs : List Int) (values : List (Option Int)) : List Int × PushBulkResult :=
  if values.isEmpty then (vs, PushBulkResult.missingValues)
  else
    match parseAll values with
    | none => (vs, PushBulkResult.notIntegers)
    | some ints => pushBulkLoop vs ints

/-- Result of `pop` (src/main.py lines 239-270). -/
inductive PopResult where
  | ok (v : Int)
  | underflow
  deriving DecidableEq

/-- Body of `pop` (src/main.py lines 265-270): `if len(stack) <= 0` underflow,
else return `stack.pop()` (the last element; the guard makes the `0`
default of `getLastD` unreachable). -/
def pop (vs : List Int) : List Int × PopResult :=
  if vs.length ≤ 0 then (vs, PopResult.underflow)
  else (vs.dropLast, PopResult.ok (vs.getLastD 0))

/-- Result of `pop_bulk` (src/main.py lines 273-315). -/
inductive PopBulkResult where
  | ok (vals : List Int)
  | countNotInteger
  | underflow
  deriving DecidableEq

/-- Comprehension `[stack.pop() for _ in range(count)]` (src/main.py line 315): pop the
last element `n` times, collecting the popped values in order.  The guard
`len(stack) >= count` makes the `0` default unreachable. -/
def popLoop : List Int → Nat → List Int × List Int
  | vs, 0 => ([], vs)
  | vs, n + 1 =>
    let v := vs.getLastD 0
    let rest := vs.dropLast
    let next := popLoop rest n
    (v :: next.1, next.2)

/-- Body of `pop_bulk` (src/main.py lines 305-315): parse `count` (`none`
models a missing/non-integer parameter), underflow when
`len(values) < count`, else pop `count` times (`range(count)` is empty for
`count <= 0`, hence `Int.toNat`). -/
def pop_bulk (vs : List Int) (countArg : Option Int) : List Int × PopBulkResult :=
  match countArg with
  | none => (vs, PopBulkResult.countNotInteger)
  | some count =>
    if (vs.length : Int) < count then (vs, PopBulkResult.underflow)
    else
      let next := popLoop vs count.toNat
      (next.2, PopBulkResult.ok next.1)

/-- Result of `peek` (src/main.py lines 343-374). -/
inductive PeekResult where
  | ok (v : Int)
  | empty
  deriving DecidableEq

/-- Body of `peek` (src/main.py lines 369-374): empty check, else `stack[-1]`
without mutation. -/
def peek (vs : List Int) : List Int × PeekResult :=
  if vs.length = 0 then (vs, PeekResult.empty)
  else (vs, PeekResult.ok (vs.getLastD 0))

/-- Body of `size` (src/main.py lines 318-340): `stack.buffer_info()[1]`. -/
def size (vs : List Int) : List Int × Nat :=
  (vs, vs.length)

/-- The `/api/push` endpoint: decorator plus body. -/
def push_handler (s : Store) (idArg : Option Nat) (valueArg : Option Int)
    (now : Nat) : Store × Except LookupErr PushResult :=
  require_valid_stack_id (fun vs => push vs valueArg) s idArg now

/-- The `/api/push_bulk` endpoint: decorator plus body. -/
def push_bulk_handler (s : Store) (idArg : Option Nat)
    (valuesArg : List (Option Int)) (now : Nat) :
    Store × Except LookupErr PushBulkResult :=
  require_valid_stack_id (fun vs => push_bulk vs valuesArg) s idArg now

/-- The `/api/pop` endpoint: decorator plus body. -/
def pop_handler (s : Store) (idArg : Option Nat) (now : Nat) :
    Store × Except LookupErr PopResult :=
  require_valid_stack_id pop s idArg now

/-- The `/api/pop_bulk` endpoint: decorator plus body. -/
def pop_bulk_handler (s : Store) (idArg : Option Nat) (countArg : Option Int)
    (now : Nat) : Store × Except LookupErr PopBulkResult :=
  require_valid_stack_id (fun vs => pop_bulk vs countArg) s idArg now

/-- The `/api/peek` endpoint: decorator plus body. -/
def peek_handler (s : Store) (idArg : Option Nat) (now : Nat) :
    Store × Except LookupErr PeekResult :=
  require_valid_stack_id peek s idArg now

/-- The `/api/size` endpoint: decorator plus body. -/
def size_handler (s : Store) (idArg : Option Nat) (now : Nat) :
    Store × Except LookupErr Nat :=
  require_valid_stack_id size s idArg now

/-- Function `destroy` (src/main.py lines 377-400): the decorator refreshes the
expiry, then `del app.stacks[stack_id]`. -/
def destroy (s : Store) (idArg : Option Nat) (now : Nat) :
    Store × Except LookupErr Unit :=
  match idArg with
  | none => (s, Except.error LookupErr.idNotInteger)
  | some id =>
    match s.lookup id with
    | none => (s, Except.error LookupErr.stackNotFound)
    | some _ =>
      let s1 := refresh_stack_expiry s id now
      (s1.eraseP (fun p => p.1 == id), Except.ok ())

/-- Iterated calls to the `push` endpoint body, one per element of the
input sequence, collecting the per-call results. -/
def iterPush : List Int → List Int → List Int × List PushResult
  | vs, [] => (vs, [])
  | vs, v :: rest =>
    let out := push vs (some v)
    let next := iterPush out.1 rest
    (next.1, out.2 :: next.2)

/-- Iterated calls to the `pop` endpoint body, collecting the per-call
results. -/
def iterPop : List Int → Nat → List Int × List PopResult
  | vs, 0 => (vs, [])
  | vs, n + 1 =>
    let out := pop vs
    let next := iterPop out.1 n
    (next.1, out.2 :: next.2)

/-! ## Helper lemmas -/

theorem lookup_mapEntryAt (s : Store) (id : Nat) (g : StackEntry → StackEntry) :
    (mapEntryAt s id g).lookup id = (s.lookup id).map g := by
  induction s with
  | nil => rfl
  | cons p t ih =>
    obtain ⟨k, e⟩ := p
    by_cases h : k = id
    · subst h
      have hd : (if (k, e).1 = k then ((k, e).1, g (k, e).2) else (k, e)) = (k, g e) := by
        simp
      simp only [mapEntryAt, List.map_cons, hd]
      simp [List.lookup]
    · simp only [mapEntryAt, List.map_cons] at *
      rw [if_neg (by simpa using h)]
      simpa [List.lookup, beq_false_of_ne (Ne.symm h)] using ih

theorem length_mapEntryAt (s : Store) (id : Nat) (g : StackEntry → StackEntry) :
    (mapEntryAt s id g).length = s.length := by
  simp [mapEntryAt]

theorem popLoop_append (back : List Int) : ∀ front : List Int,
    popLoop (front ++ back) back.length = (back.reverse, front) := by
  induction back using List.reverseRecOn with
  | nil => intro front; simp [popLoop]
  | append_singleton ys y ih =>
    intro front
    rw [List.length_append, List.length_singleton,
      show front ++ (ys ++ [y]) = (front ++ ys) ++ [y] by simp]
    simp only [popLoop, List.getLastD_concat, List.dropLast_concat]
    rw [ih front]
    simp

theorem popLoop_eq_take_drop (vs : List Int) (n : Nat) (h : n ≤ vs.length) :
    popLoop vs n = (vs.reverse.take n, vs.take (vs.length - n)) := by
  have h2 : (vs.drop (vs.length - n)).length = n := by
    simp only [List.length_drop]; omega
  have h3 := popLoop_append (vs.drop (vs.length - n)) (vs.take (vs.length - n))
  rw [List.take_append_drop, h2] at h3
  have h4 : (vs.drop (vs.length - n)).reverse = vs.reverse.take n := by
    rw [List.reverse_drop]
    congr 1
    omega
  rw [h3, h4]

theorem parseAll_map_some (l : List Int) : parseAll (l.map some) = some l := by
  induction l with
  | nil => rfl
  | cons v rest ih => simp [parseAll, ih]

theorem parseAll_of_none_mem (tokens : List (Option Int)) (h : none ∈ tokens) :
    parseAll tokens = none := by
  induction tokens with
  | nil => cases h
  | cons t rest ih =>
    cases t with
    | none => rfl
    | some v =>
      have hm : (none : Option Int) ∈ rest := by simpa using h
      simp [parseAll, ih hm]

theorem pushBulkLoop_ok (batch : List Int) : ∀ vs : List Int,
    (∀ v ∈ batch, fitsInt64 v = true) →
    vs.length + batch.length ≤ MAX_STACK_SIZE →
    pushBulkLoop vs batch = (vs ++ batch, PushBulkResult.ok) := by
  induction batch with
  | nil => intro vs _ _; simp [pushBulkLoop]
  | cons v rest ih =>
    intro vs hfit hlen
    have hv : fitsInt64 v = true := hfit v (by simp)
    have hle : ¬ MAX_STACK_SIZE < (vs ++ [v]).length := by
      simp only [List.length_append, List.length_singleton]
      simp only [List.length_cons] at hlen
      omega
    simp only [pushBulkLoop, hv, Bool.true_eq_false, if_false, if_neg hle]
    rw [ih (vs ++ [v]) (fun w hw => hfit w (by simp [hw]))
      (by simp only [List.length_append, List.length_singleton]
          simp only [List.length_cons] at hlen
          omega)]
    simp

theorem pushBulkLoop_overflow (batch : List Int) : ∀ vs : List Int,
    (∀ v ∈ batch, fitsInt64 v = true) →
    vs.length ≤ MAX_STACK_SIZE →
    MAX_STACK_SIZE < vs.length + batch.length →
    pushBulkLoop vs batch =
      (vs ++ batch.take (MAX_STACK_SIZE - vs.length), PushBulkResult.stackOverflow) := by
  induction batch with
  | nil =>
    intro vs _ hvs hover
    simp only [List.length_nil, Nat.add_zero] at hover
    omega
  | cons v rest ih =>
    intro vs hfit hvs hover
    have hv : fitsInt64 v = true := hfit v (by simp)
    simp only [pushBulkLoop, hv, Bool.true_eq_false, if_false]
    by_cases hfull : MAX_STACK_SIZE < (vs ++ [v]).length
    · have hlen : vs.length = MAX_STACK_SIZE := by
        simp only [List.length_append, List.length_singleton] at hfull
        omega
      rw [if_pos hfull, List.dropLast_concat]
      simp [hlen]
    · rw [if_neg hfull]
      have h1 : (vs ++ [v]).length ≤ MAX_STACK_SIZE := by omega
      rw [ih (vs ++ [v]) (fun w hw => hfit w (by simp [hw])) h1
        (by simp only [List.length_append, List.length_singleton]
            simp only [List.length_cons] at hover
            omega)]
      have h2 : MAX_STACK_SIZE - vs.length = (MAX_STACK_SIZE - (vs ++ [v]).length) + 1 := by
        simp only [List.length_append, List.length_singleton] at h1 ⊢
        omega
      rw [h2, List.take_succ_cons]
      simp

theorem pushBulkLoop_bad (pre : List Int) : ∀ (vs : List Int) (bad : Int) (rest : List Int),
    (∀ v ∈ pre, fitsInt64 v = true) →
    fitsInt64 bad = false →
    vs.length + pre.length ≤ MAX_STACK_SIZE →
    pushBulkLoop vs (pre ++ bad :: rest) = (vs ++ pre, PushBulkResult.valueTooLarge) := by
  induction pre with
  | nil =>
    intro vs bad rest _ hbad _
    simp [pushBulkLoop, hbad]
  | cons v tl ih =>
    intro vs bad rest hfit hbad hlen
    have hv : fitsInt64 v = true := hfit v (by simp)
    have hle : ¬ MAX_STACK_SIZE < (vs ++ [v]).length := by
      simp only [List.length_append, List.length_singleton]
      simp only [List.length_cons] at hlen
      omega
    simp only [List.cons_append, pushBulkLoop, hv, Bool.true_eq_false, if_false, if_neg hle,
      List.append_eq]
    rw [ih (vs ++ [v]) bad rest (fun w hw => hfit w (by simp [hw])) hbad
      (by simp only [List.length_append, List.length_singleton]
          simp only [List.length_cons] at hlen
          omega)]
    simp

theorem iterPush_ok (values : List Int) : ∀ vs : List Int,
    (∀ v ∈ values, fitsInt64 v = true) →
    vs.length + values.length ≤ MAX_STACK_SIZE →
    iterPush vs values = (vs ++ values, values.map (fun _ => PushResult.ok)) := by
  induction values with
  | nil => intro vs _ _; simp [iterPush]
  | cons v rest ih =>
    intro vs hfit hlen
    have hv : fitsInt64 v = true := hfit v (by simp)
    have hle : ¬ MAX_STACK_SIZE < (vs ++ [v]).length := by
      simp only [List.length_append, List.length_singleton]
      simp only [List.length_cons] at hlen
      omega
    simp only [iterPush, push, hv, Bool.true_eq_false, if_false, if_neg hle]
    rw [ih (vs ++ [v]) (fun w hw => hfit w (by simp [hw]))
      (by simp only [List.length_append, List.length_singleton]
          simp only [List.length_cons] at hlen
          omega)]
    simp

theorem iterPop_total (vs : List Int) :
    iterPop vs vs.length = ([], vs.reverse.map PopResult.ok) := by
  induction vs using List.reverseRecOn with
  | nil => simp [iterPop]
  | append_singleton ys y ih =>
    rw [List.length_append, List.length_singleton]
    have hp : pop (ys ++ [y]) = (ys, PopResult.ok y) := by
      have hne : ¬ (ys ++ [y]).length ≤ 0 := by simp
      simp [pop, hne, List.getLastD_concat, List.dropLast_concat]
    simp only [iterPop, hp, ih]
    simp

/-! ## Claim theorems -/

/-- C1 counterexample: the claim "if `push_bulk` fails with ValueOutOfRange
then no element of the batch has been appended" is false on the code.  On an
empty stack, the batch `[0, 2^63]` fails with "Value is too large" (the
out-of-range error), yet the element `0` has been appended: the stack is
`[0]`, not its pre-call state `[]`. -/
theorem push_bulk_range_precheck_cex :
    push_bulk [] [some 0, some (2 ^ 63)] = ([0], PushBulkResult.valueTooLarge)
    ∧ ([0] : List Int) ≠ [] := by
  constructor
  · rfl
  · simp

/-- C1 (amended): only the integrality check is performed for the whole
batch before any element is appended (a non-integral token aborts with "All
values must be integers" and the stack unchanged); the signed-64-bit range
check happens per element inside the append loop, so a failure with "Value
is too large" leaves the in-range prefix before the first offending element
committed. -/
theorem push_bulk_parse_atomic_range_per_element
    (vs pre rest : List Int) (bad : Int) (tokens : List (Option Int))
    (hpre : ∀ v ∈ pre, fitsInt64 v = true)
    (hbad : fitsInt64 bad = false)
    (hcap : vs.length + pre.length ≤ MAX_STACK_SIZE)
    (hnone : none ∈ tokens) :
    push_bulk vs ((pre ++ bad :: rest).map some) = (vs ++ pre, PushBulkResult.valueTooLarge)
    ∧ push_bulk vs tokens = (vs, PushBulkResult.notIntegers) := by
  constructor
  · have hne : ((pre ++ bad :: rest).map some).isEmpty = false := by simp
    simp only [push_bulk, hne, Bool.false_eq_true, if_false, parseAll_map_some]
    exact pushBulkLoop_bad pre vs bad rest hpre hbad hcap
  · have hne : tokens.isEmpty = false := by
      cases tokens with
      | nil => cases hnone
      | cons t r => rfl
    simp only [push_bulk, hne, Bool.false_eq_true, if_false,
      parseAll_of_none_mem tokens hnone]

/-- Witness for the amended C1 at a concrete input. -/
theorem push_bulk_parse_atomic_range_per_element_witness :
    push_bulk [] [some 1, some (2 ^ 63)] = ([1], PushBulkResult.valueTooLarge)
    ∧ push_bulk [] [none] = ([], PushBulkResult.notIntegers) := by
  have h := push_bulk_parse_atomic_range_per_element [] [1] [] (2 ^ 63) [none]
    (by intro v hv; rw [List.mem_singleton] at hv; subst hv; decide)
    (by decide) (by decide) (by simp)
  simpa using h

/-- C2: when a `push_bulk` batch overflows mid-way (all elements in range,
initial length at most `MAX_STACK_SIZE`, total length beyond it), the call
fails with "Stack overflow", the failing element is rolled back, and exactly
the prefix of the batch up to (not including) the first offending element
remains committed in input order, leaving the stack at exactly
`MAX_STACK_SIZE` elements: the operation is not atomic. -/
theorem push_bulk_overflow_partial_commit (vs values : List Int)
    (hfit : ∀ v ∈ values, fitsInt64 v = true)
    (hvs : vs.length ≤ MAX_STACK_SIZE)
    (hover : MAX_STACK_SIZE < vs.length + values.length) :
    push_bulk vs (values.map some)
      = (vs ++ values.take (MAX_STACK_SIZE - vs.length), PushBulkResult.stackOverflow)
    ∧ (vs ++ values.take (MAX_STACK_SIZE - vs.length)).length = MAX_STACK_SIZE := by
  have hne : (values.map some).isEmpty = false := by
    cases values with
    | nil => simp at hover; omega
    | cons v r => rfl
  constructor
  · simp only [push_bulk, hne, Bool.false_eq_true, if_false, parseAll_map_some]
    exact pushBulkLoop_overflow values vs hfit hvs hover
  · simp only [List.length_append, List.length_take]
    omega

/-- Witness for C2 at a concrete input: a full stack plus a one-element
batch. -/
theorem push_bulk_overflow_partial_commit_witness :
    push_bulk (List.replicate MAX_STACK_SIZE (0 : Int)) [some 1]
      = (List.replicate MAX_STACK_SIZE (0 : Int), PushBulkResult.stackOverflow)
    ∧ (List.replicate MAX_STACK_SIZE (0 : Int)).length = MAX_STACK_SIZE := by
  have h := push_bulk_overflow_partial_commit (List.replicate MAX_STACK_SIZE 0) [1]
    (by intro v hv; rw [List.mem_singleton] at hv; subst hv; decide)
    (by rw [List.length_replicate])
    (by rw [List.length_replicate, List.length_singleton]; omega)
  have e : MAX_STACK_SIZE - (List.replicate MAX_STACK_SIZE (0 : Int)).length = 0 := by
    rw [List.length_replicate]
    omega
  rw [e] at h
  rw [List.take_zero] at h
  rw [List.append_nil] at h
  rw [show List.map some ([1] : List Int) = [some 1] from rfl] at h
  exact h

/-- C3: `pop_bulk` is atomic.  With `count` greater than the current length
it fails with "Stack underflow" and the stack is entirely unmodified; with
`0 ≤ count ≤ length` it succeeds, removes exactly `count` elements, and
returns them in pop order, most-recently-pushed first. -/
theorem pop_bulk_atomic (vs : List Int) (c : Int) :
    ((vs.length : Int) < c → pop_bulk vs (some c) = (vs, PopBulkResult.underflow))
    ∧ (0 ≤ c → c ≤ (vs.length : Int) →
        pop_bulk vs (some c)
          = (vs.take (vs.length - c.toNat), PopBulkResult.ok (vs.reverse.take c.toNat))
        ∧ (vs.take (vs.length - c.toNat)).length = vs.length - c.toNat) := by
  constructor
  · intro h
    simp only [pop_bulk, if_pos h]
  · intro h0 hle
    have hn : c.toNat ≤ vs.length := by omega
    have hnot : ¬ ((vs.length : Int) < c) := by omega
    constructor
    · simp only [pop_bulk, if_neg hnot, popLoop_eq_take_drop vs c.toNat hn]
    · simp only [List.length_take]
      omega

/-- Witness for C3 at concrete inputs: underflow branch with `count = 5` and
success branch with `count = 2` on the stack `[1, 2, 3]`. -/
theorem pop_bulk_atomic_witness :
    pop_bulk [1, 2, 3] (some 5) = ([1, 2, 3], PopBulkResult.underflow)
    ∧ pop_bulk [1, 2, 3] (some 2) = ([1], PopBulkResult.ok [3, 2]) := by
  constructor
  · exact (pop_bulk_atomic [1, 2, 3] 5).1 (by decide)
  · have h := ((pop_bulk_atomic [1, 2, 3] 2).2 (by decide) (by decide)).1
    simpa using h

/-- C4: pushing an in-range value onto a stack holding exactly
`MAX_STACK_SIZE` elements fails with "Stack overflow" and rolls the
just-appended value back, leaving the stack at its pre-call state; pushing
onto a stack strictly below the bound succeeds and appends the value at the
top (the end). -/
theorem push_at_capacity_rolls_back (vs : List Int) (v : Int)
    (hv : fitsInt64 v = true) :
    (vs.length = MAX_STACK_SIZE → push vs (some v) = (vs, PushResult.stackOverflow))
    ∧ (vs.length < MAX_STACK_SIZE → push vs (some v) = (vs ++ [v], PushResult.ok)) := by
  constructor
  · intro h
    have hfull : MAX_STACK_SIZE < (vs ++ [v]).length := by
      simp [h]
    simp only [push, hv, Bool.true_eq_false, if_false, if_pos hfull, List.dropLast_concat]
  · intro h
    have hok : ¬ MAX_STACK_SIZE < (vs ++ [v]).length := by
      simp only [List.length_append, List.length_singleton]
      omega
    simp only [push, hv, Bool.true_eq_false, if_false, if_neg hok]

/-- Witness for C4 at concrete inputs: a full stack of zeros rejects a push
and is unchanged; an empty stack accepts it. -/
theorem push_at_capacity_rolls_back_witness :
    push (List.replicate MAX_STACK_SIZE (0 : Int)) (some 5)
      = (List.replicate MAX_STACK_SIZE (0 : Int), PushResult.stackOverflow)
    ∧ push [] (some 5) = ([5], PushResult.ok) := by
  constructor
  · exact (push_at_capacity_rolls_back (List.replicate MAX_STACK_SIZE 0) 5 (by decide)).1
      (by rw [List.length_replicate])
  · simpa using (push_at_capacity_rolls_back [] 5 (by decide)).2
      (by rw [List.length_nil, MAX_STACK_SIZE]; omega)

/-- C5 (LIFO law): after `n` pushes of in-range values onto a fresh (empty)
stack all of which succeed, `size` reports `n`, the next `n` `pop` calls all
succeed and return the pushed values in strict reverse order of insertion,
and one further `pop` on the then-empty stack fails with "Stack
underflow". -/
theorem lifo_law (values : List Int)
    (hfit : ∀ v ∈ values, fitsInt64 v = true)
    (hlen : values.length ≤ MAX_STACK_SIZE) :
    iterPush [] values = (values, values.map (fun _ => PushResult.ok))
    ∧ (size values).2 = values.length
    ∧ iterPop values values.length = ([], values.reverse.map PopResult.ok)
    ∧ pop [] = ([], PopResult.underflow) := by
  refine ⟨?_, rfl, iterPop_total values, rfl⟩
  have h := iterPush_ok values [] hfit (by simpa using hlen)
  simpa using h

/-- Witness for C5 at a concrete input: pushing `[5, 7]` and popping
twice. -/
theorem lifo_law_witness :
    iterPush [] [5, 7] = ([5, 7], [PushResult.ok, PushResult.ok])
    ∧ (size [5, 7]).2 = 2
    ∧ iterPop [5, 7] 2 = ([], [PopResult.ok 7, PopResult.ok 5])
    ∧ pop [] = ([], PopResult.underflow) := by
  have h := lifo_law [5, 7] (by decide) (by decide)
  simpa using h

/-- C6 (round-trip law): on a stack with at least `k` elements (all within
the int64 range, length within capacity), `pop_bulk(k)` followed by
`push_bulk` of the `k` returned values in reverse order restores the exact
original sequence; for `k ≥ 1` the restoring `push_bulk` succeeds with no
capacity or range error. -/
theorem pop_push_roundtrip (vs : List Int) (k : Nat)
    (hk : k ≤ vs.length)
    (hmax : vs.length ≤ MAX_STACK_SIZE)
    (hfit : ∀ v ∈ vs, fitsInt64 v = true) :
    pop_bulk vs (some (k : Int))
      = (vs.take (vs.length - k), PopBulkResult.ok (vs.reverse.take k))
    ∧ (push_bulk (vs.take (vs.length - k)) ((vs.reverse.take k).reverse.map some)).1 = vs
    ∧ (1 ≤ k →
        push_bulk (vs.take (vs.length - k)) ((vs.reverse.take k).reverse.map some)
          = (vs, PushBulkResult.ok)) := by
  have hnot : ¬ ((vs.length : Int) < (k : Int)) := by
    omega
  have htn : ((k : Nat) : Int).toNat = k := Int.toNat_natCast k
  have h1 : pop_bulk vs (some (k : Int))
      = (vs.take (vs.length - k), PopBulkResult.ok (vs.reverse.take k)) := by
    simp only [pop_bulk, if_neg hnot, htn, popLoop_eq_take_drop vs k hk]
  have hrev : (vs.reverse.take k).reverse = vs.drop (vs.length - k) := by
    have e1 : (vs.drop (vs.length - k)).reverse = vs.reverse.take k := by
      rw [List.reverse_drop]
      congr 1
      omega
    rw [← e1, List.reverse_reverse]
  have hok : 1 ≤ k →
      push_bulk (vs.take (vs.length - k)) ((vs.reverse.take k).reverse.map some)
        = (vs, PushBulkResult.ok) := by
    intro hk1
    rw [hrev]
    have hdne : vs.drop (vs.length - k) ≠ [] := by
      intro hnil
      have hc := congrArg List.length hnil
      simp only [List.length_drop, List.length_nil] at hc
      omega
    have hne : ((vs.drop (vs.length - k)).map some).isEmpty = false := by
      cases hd : vs.drop (vs.length - k) with
      | nil => exact absurd hd hdne
      | cons a l => rfl
    have hfit2 : ∀ v ∈ vs.drop (vs.length - k), fitsInt64 v = true :=
      fun v hv => hfit v (List.drop_subset _ _ hv)
    have hlen2 : (vs.take (vs.length - k)).length
        + (vs.drop (vs.length - k)).length ≤ MAX_STACK_SIZE := by
      simp only [List.length_take, List.length_drop]
      omega
    simp only [push_bulk, hne, Bool.false_eq_true, if_false, parseAll_map_some]
    rw [pushBulkLoop_ok (vs.drop (vs.length - k)) (vs.take (vs.length - k)) hfit2 hlen2,
      List.take_append_drop]
  refine ⟨h1, ?_, hok⟩
  by_cases hk0 : k = 0
  · subst hk0
    have hnil : (vs.reverse.take 0).reverse.map some = ([] : List (Option Int)) := by
      simp
    rw [hnil]
    simp [push_bulk, List.take_length]
  · rw [hok (by omega)]

/-- Witness for C6 at a concrete input: `[1, 2, 3]` with `k = 2`. -/
theorem pop_push_roundtrip_witness :
    pop_bulk [1, 2, 3] (some 2) = ([1], PopBulkResult.ok [3, 2])
    ∧ push_bulk [1] [some 2, some 3] = ([1, 2, 3], PushBulkResult.ok) := by
  have h := pop_push_roundtrip [1, 2, 3] 2 (by decide) (by decide) (by decide)
  obtain ⟨ha, -, hc⟩ := h
  constructor
  · simpa using ha
  · have hb := hc (by decide)
    simpa using hb

/-- C7: the expiry sweep (run by `before_request` before every inbound
operation) removes exactly the entries whose expiry is strictly less than
the current time: an entry survives, unchanged, if and only if it was
present and its expiry is at least `now`. -/
theorem sweep_removes_exactly_expired (s : Store) (now : Nat) :
    before_request s now = remove_expired_stacks s now
    ∧ ∀ p : Nat × StackEntry,
        (p ∈ remove_expired_stacks s now ↔ p ∈ s ∧ now ≤ p.2.expiry) := by
  refine ⟨rfl, fun p => ?_⟩
  simp [remove_expired_stacks, List.mem_filter, Nat.not_lt]

/-- C8: the store-level invariant `len(entries) ≤ MAX_STACKS` is preserved:
`create` fails with "Maximum number of stacks reached" whenever the store
already holds `MAX_STACKS` entries, otherwise inserts exactly one new empty
entry with expiry `now + TTL` under the fresh identifier and returns it;
the sweep, the id-addressed operations and `destroy` never increase the
number of entries. -/
theorem store_capacity_invariant (s : Store) (id : Nat) (now : Nat) :
    (MAX_STACKS ≤ s.length → create s id now = (s, CreateResult.maxStacks))
    ∧ (s.length < MAX_STACKS → s.lookup id = none →
        create s id now
          = (s ++ [(id, { arr := [], expiry := now + TTL })], CreateResult.ok id)
        ∧ (s ++ [(id, ({ arr := [], expiry := now + TTL } : StackEntry))]).length
            = s.length + 1
        ∧ (s ++ [(id, ({ arr := [], expiry := now + TTL } : StackEntry))]).length
            ≤ MAX_STACKS)
    ∧ (remove_expired_stacks s now).length ≤ s.length
    ∧ (∀ (α : Type) (f : List Int → List Int × α) (idArg : Option Nat),
        ((require_valid_stack_id f s idArg now).1).length = s.length)
    ∧ (∀ idArg : Option Nat, ((destroy s idArg now).1).length ≤ s.length) := by
  refine ⟨?_, ?_, ?_, ?_, ?_⟩
  · intro h
    simp only [create, if_pos h]
  · intro h hfree
    have hn : ¬ MAX_STACKS ≤ s.length := by omega
    refine ⟨?_, ?_, ?_⟩
    · simp only [create, if_neg hn, dictInsert, if_pos hfree]
    · simp
    · simp only [List.length_append, List.length_singleton]
      omega
  · exact List.length_filter_le _ _
  · intro α f idArg
    cases idArg with
    | none => rfl
    | some i =>
      cases hl : s.lookup i with
      | none => simp [require_valid_stack_id, hl]
      | some e =>
        simp [require_valid_stack_id, hl, refresh_stack_expiry, length_mapEntryAt,
          mapEntryAt]
  · intro idArg
    cases idArg with
    | none => exact le_refl _
    | some i =>
      cases hl : s.lookup i with
      | none => simp [destroy, hl]
      | some e =>
        simp only [destroy, hl]
        calc ((refresh_stack_expiry s i now).eraseP (fun p => p.1 == i)).length
            ≤ (refresh_stack_expiry s i now).length := List.length_eraseP_le _
          _ = s.length := by rw [refresh_stack_expiry, length_mapEntryAt]

/-- Witness for C8 at a concrete input: creating a stack in the empty
store. -/
theorem store_capacity_invariant_witness :
    create [] 7 0 = ([(7, { arr := [], expiry := 0 + TTL })], CreateResult.ok 7)
    ∧ ([(7, ({ arr := [], expiry := 0 + TTL } : StackEntry))] : Store).length
        ≤ MAX_STACKS := by
  have h := (store_capacity_invariant [] 7 0).2.1 (by decide) rfl
  refine ⟨by simpa using h.1, ?_⟩
  have h2 := h.2.2
  simpa using h2

/-- C9: for every id-addressed operation whose identifier is present, the
entry's expiry is refreshed to `now + TTL` during lookup, before the
operation body runs — hence even when the body subsequently fails (for
example `pop` on an empty stack, or `push` with a non-integer value), the
expiry has been refreshed; `destroy` likewise refreshes before deleting. -/
theorem lookup_refreshes_before_body (s : Store) (id : Nat) (now : Nat)
    (e : StackEntry) (h : s.lookup id = some e) :
    (refresh_stack_expiry s id now).lookup id = some { e with expiry := now + TTL }
    ∧ (∀ (α : Type) (f : List Int → List Int × α),
        ((require_valid_stack_id f s (some id) now).1).lookup id
          = some { arr := (f e.arr).1, expiry := now + TTL })
    ∧ (e.arr = [] → (pop_handler s (some id) now).2 = Except.ok PopResult.underflow)
    ∧ (push_handler s (some id) none now).2 = Except.ok PushResult.valueNotInteger
    ∧ ((push_handler s (some id) none now).1).lookup id
        = some { arr := e.arr, expiry := now + TTL }
    ∧ destroy s (some id) now
        = ((refresh_stack_expiry s id now).eraseP (fun p => p.1 == id), Except.ok ()) := by
  have hrl : (refresh_stack_expiry s id now).lookup id
      = some { e with expiry := now + TTL } := by
    rw [refresh_stack_expiry, lookup_mapEntryAt, h]
    rfl
  have hwrap : ∀ (α : Type) (f : List Int → List Int × α),
      ((require_valid_stack_id f s (some id) now).1).lookup id
        = some { arr := (f e.arr).1, expiry := now + TTL } := by
    intro α f
    simp only [require_valid_stack_id, h]
    rw [lookup_mapEntryAt, hrl]
    rfl
  refine ⟨hrl, hwrap, ?_, ?_, ?_, ?_⟩
  · intro harr
    simp only [pop_handler, require_valid_stack_id, h, harr]
    rfl
  · simp only [push_handler, require_valid_stack_id, h]
    rfl
  · have hp := hwrap PushResult (fun vs => push vs none)
    simpa [push_handler] using hp
  · simp only [destroy, h]

/-- Witness for C9 at a concrete input: a one-entry store whose entry is
empty, so `pop` fails yet the expiry has been refreshed. -/
theorem lookup_refreshes_before_body_witness :
    (refresh_stack_expiry [(1, { arr := [], expiry := 0 })] 1 5).lookup 1
      = some { arr := [], expiry := 5 + TTL }
    ∧ (pop_handler [(1, { arr := [], expiry := 0 })] (some 1) 5).2
        = Except.ok PopResult.underflow
    ∧ ((pop_handler [(1, { arr := [], expiry := 0 })] (some 1) 5).1).lookup 1
        = some { arr := [], expiry := 5 + TTL } := by
  have h := lookup_refreshes_before_body [(1, { arr := [], expiry := 0 })] 1 5
    { arr := [], expiry := 0 } rfl
  refine ⟨h.1, h.2.2.1 rfl, ?_⟩
  have hw := h.2.1 PopResult pop
  simpa [pop_handler] using hw

/-- C10: for a negative `count`, `pop_bulk` succeeds: the only check is
`len(values) < count`, which no negative count triggers, and
`range(count)` is empty, so no element is removed, the stack is unchanged,
and the returned sequence is empty. -/
theorem pop_bulk_negative_count_noop (vs : List Int) (c : Int) (hc : c < 0) :
    pop_bulk vs (some c) = (vs, PopBulkResult.ok []) := by
  have h1 : ¬ ((vs.length : Int) < c) := by
    have h0 : (0 : Int) ≤ vs.length := Int.ofNat_nonneg _
    omega
  have h2 : c.toNat = 0 := Int.toNat_of_nonpos (le_of_lt hc)
  simp only [pop_bulk, if_neg h1, h2, popLoop]

/-- Witness for C10 at a concrete input. -/
theorem pop_bulk_negative_count_noop_witness :
    pop_bulk [1, 2] (some (-1)) = ([1, 2], PopBulkResult.ok []) :=
  pop_bulk_negative_count_noop [1, 2] (-1) (by decide)

end StackAPI
